import Mathlib

/-!
Verification of the vibe-coding-helper pattern catalog.

Shallow embedding of the two access layers of the repository, src/index.js
(the protocol adapter, class PatternLibraryServer) and src/server.js (the
HTTP adapter). JavaScript strings are modelled as lists of characters, the
patterns directory as a list of entries in filesystem enumeration order,
and fs.readFile as a total lookup (a fallible variant is used for the
error-handling claims). The regular expressions of the scanners are
embedded with ECMAScript semantics: the match is the leftmost one over the
whole text, the class denoted by a backslash followed by s also matches
line terminators, and the dot refuses line terminators.
-/

/-- The characters matched by the ECMAScript regex whitespace class:
space, tab, line feed, vertical tab, form feed, carriage return, and the
Unicode space separators plus the byte order mark. -/
def jsWhitespace (c : Char) : Bool :=
  c == ' ' || c == '\t' || c == '\n' || c == '\x0b' || c == '\x0c' || c == '\r' ||
  c == '\u00A0' || c == '\u1680' || (0x2000 ≤ c.toNat && c.toNat ≤ 0x200a) ||
  c == '\u2028' || c == '\u2029' || c == '\u202F' || c == '\u205F' ||
  c == '\u3000' || c == '\uFEFF'

/-- ECMAScript line terminators: the characters at which the multiline
anchors match and which the dot refuses. -/
def jsLineTerm (c : Char) : Bool :=
  c == '\n' || c == '\r' || c == '\u2028' || c == '\u2029'

/-- Largest index of an element satisfying p, used for the backtracking of
a greedy whitespace-plus when the input ends inside the run. -/
def lastIdxSat (p : Char → Bool) : List Char → Option Nat
  | [] => none
  | c :: cs =>
    match lastIdxSat p cs with
    | some j => some (j + 1)
    | none => if p c then some 0 else none

/-- The capture produced by the regex fragment that follows the literal
marker in the scanners of this repository (one or more whitespace
characters, then a captured group of one or more dots, then the end
anchor), run with ECMAScript backtracking on the text after the marker:
the whitespace run is greedy and, since the whitespace class matches line
terminators, may cross line breaks; the captured group then extends to
the end of the line. none when no match starts here. -/
def tailCapture (rest : List Char) : Option (List Char) :=
  let ws := rest.takeWhile jsWhitespace
  let body := rest.drop ws.length
  if ws.isEmpty then none
  else
    match body with
    | [] =>
      match lastIdxSat (fun c => !jsLineTerm c) (ws.drop 1) with
      | some j => some ((ws.drop (j + 1)).takeWhile (fun c => !jsLineTerm c))
      | none => none
    | _ :: _ => some (body.takeWhile (fun c => !jsLineTerm c))

/-- First match of the multiline anchored regex (line start, the literal
marker, whitespace, captured rest of line) over the whole text, scanning
candidate positions left to right as the ECMAScript engine does; atStart
records whether the current position is at the start of a line. -/
def scanAnchored (lit : Char) : List Char → Bool → Option (List Char)
  | [], _ => none
  | c :: rest, atStart =>
    if atStart && c == lit then
      match tailCapture rest with
      | some cap => some cap
      | none => scanAnchored lit rest (jsLineTerm c)
    else scanAnchored lit rest (jsLineTerm c)

/-- First match of the same regex without the line-start anchor. -/
def scanAnywhere (lit : Char) : List Char → Option (List Char)
  | [] => none
  | c :: rest =>
    if c == lit then
      match tailCapture rest with
      | some cap => some cap
      | none => scanAnywhere lit rest
    else scanAnywhere lit rest

/-- The title capture of index.js line 177 and server.js line 92: the
multiline match of a hash mark at a line start, whitespace, and the
captured rest. -/
def extractTitle (content : List Char) : Option (List Char) :=
  scanAnchored '#' content true

/-- The description capture of index.js line 178: the multiline match of
a greater-than sign at a line start, whitespace, and the captured rest. -/
def extractDescAnchored (content : List Char) : Option (List Char) :=
  scanAnchored '>' content true

/-- The description capture of server.js line 96, whose regex has no
line-start anchor: the greater-than sign may sit anywhere. -/
def extractDescAnywhere (content : List Char) : Option (List Char) :=
  scanAnywhere '>' content

/-- The three characters of the markdown extension. -/
def mdSuffix : List Char := ['.', 'm', 'd']

/-- The endsWith test of index.js line 175 and server.js line 86. -/
def endsWithMd (fname : List Char) : Bool :=
  mdSuffix.isSuffixOf fname

/-- The replace call of index.js line 182 and server.js line 89: the
JavaScript replace with a string pattern removes only the first
occurrence of the extension, wherever it sits in the name. -/
def replaceFirstMd : List Char → List Char
  | [] => []
  | c :: rest =>
    if mdSuffix.isPrefixOf (c :: rest) then rest.drop 2
    else c :: replaceFirstMd rest

/-- Index of the first occurrence of pat as a contiguous substring. -/
def firstOccIdx (pat : List Char) : List Char → Option Nat
  | [] => if pat.isEmpty then some 0 else none
  | c :: rest =>
    if pat.isPrefixOf (c :: rest) then some 0
    else (firstOccIdx pat rest).map (· + 1)

/-- The includes test of JavaScript strings: substring containment,
checked prefix-wise at every position. -/
def strIncludes : List Char → List Char → Bool
  | [], needle => needle.isEmpty
  | c :: rest, needle => needle.isPrefixOf (c :: rest) || strIncludes rest needle

/-- The Basic Latin fragment of the JavaScript toLowerCase, applied
character by character (every name and query in this repository is Basic
Latin). -/
def jsLower (c : Char) : Char :=
  if 'A' ≤ c ∧ c ≤ 'Z' then Char.ofNat (c.toNat + 32) else c

/-- toLowerCase of a whole string. -/
def lowerStr (s : List Char) : List Char :=
  s.map jsLower

/-- One markdown file of a category directory: its directory entry name
and the text that readFile returns for it. -/
structure PatternFile where
  fname : List Char
  content : List Char
deriving DecidableEq

/-- One entry of the patterns root directory: a category subdirectory
with its files, or a plain file, which the stat isDirectory check of
both scanners skips. -/
inductive FsEntry
  | dir : List Char → List PatternFile → FsEntry
  | plain : List Char → FsEntry
deriving DecidableEq

/-- The record pushed by getPatternList of index.js, lines 180 to 185. -/
structure PatternEntry where
  category : List Char
  name : List Char
  title : List Char
  description : List Char
deriving DecidableEq

/-- The record pushed by getPatternList of server.js, lines 99 to 105,
which additionally carries a GitHub url. -/
structure ServerPatternEntry where
  category : List Char
  name : List Char
  title : List Char
  description : List Char
  url : List Char
deriving DecidableEq

namespace IndexJs

/-- The entry pushed by index.js getPatternList for one file, lines 180
to 185: the name strips the first occurrence of the extension, the title
falls back to the full filename, the description to the empty string. -/
def entryOf (category : List Char) (f : PatternFile) : PatternEntry :=
  ⟨category, replaceFirstMd f.fname,
    (extractTitle f.content).getD f.fname,
    (extractDescAnchored f.content).getD []⟩

/-- The inner for loop of index.js getPatternList, lines 174 to 187, with
the patterns array as the accumulator. -/
def filesLoop (category : List Char) : List PatternFile → List PatternEntry → List PatternEntry
  | [], acc => acc
  | f :: rest, acc =>
    if endsWithMd f.fname then filesLoop category rest (acc ++ [entryOf category f])
    else filesLoop category rest acc

/-- The outer for loop of index.js getPatternList, lines 167 to 189: only
entries whose stat is a directory are scanned. -/
def catLoop : List FsEntry → List PatternEntry → List PatternEntry
  | [], acc => acc
  | .dir d files :: rest, acc => catLoop rest (filesLoop d files acc)
  | .plain _ :: rest, acc => catLoop rest acc

/-- index.js getPatternList, lines 163 to 192. -/
def getPatternList (fsState : List FsEntry) : List PatternEntry :=
  catLoop fsState []

/-- The filter predicate of index.js searchPatterns, lines 198 to 202. -/
def searchMatch (query : List Char) (p : PatternEntry) : Bool :=
  strIncludes (lowerStr p.title) (lowerStr query) ||
  strIncludes (lowerStr p.description) (lowerStr query) ||
  strIncludes (lowerStr p.category) (lowerStr query)

/-- index.js searchPatterns, lines 194 to 210: the fresh pattern list
filtered by the query; the JSON serialisation of the result is elided. -/
def searchPatterns (fsState : List FsEntry) (query : List Char) : List PatternEntry :=
  (getPatternList fsState).filter (searchMatch query)

end IndexJs

namespace ServerJs

/-- The GitHub url built by server.js for a category and a name. -/
def urlOf (category name : List Char) : List Char :=
  "https://github.com/richardichogan/vibe-coding-helper/blob/master/patterns/".toList ++
    category ++ [ '/' ] ++ name ++ mdSuffix

/-- The entry pushed by server.js getPatternList for one file, lines 86
to 105: the name strips the first occurrence of the extension, the title
falls back to that stripped name, and the description regex carries no
line-start anchor. -/
def entryOf (category fname content : List Char) : ServerPatternEntry :=
  ⟨category, replaceFirstMd fname,
    (extractTitle content).getD (replaceFirstMd fname),
    (extractDescAnywhere content).getD [],
    urlOf category (replaceFirstMd fname)⟩

/-- The inner for loop of server.js getPatternList, lines 85 to 107. -/
def filesLoop (category : List Char) : List PatternFile → List ServerPatternEntry → List ServerPatternEntry
  | [], acc => acc
  | f :: rest, acc =>
    if endsWithMd f.fname then filesLoop category rest (acc ++ [entryOf category f.fname f.content])
    else filesLoop category rest acc

/-- The outer for loop of server.js getPatternList, lines 78 to 109. -/
def catLoop : List FsEntry → List ServerPatternEntry → List ServerPatternEntry
  | [], acc => acc
  | .dir d files :: rest, acc => catLoop rest (filesLoop d files acc)
  | .plain _ :: rest, acc => catLoop rest acc

/-- server.js getPatternList, lines 73 to 112. -/
def getPatternList (fsState : List FsEntry) : List ServerPatternEntry :=
  catLoop fsState []

/-- The filter predicate of the search route, server.js lines 32 to 36. -/
def searchEntryMatch (query : List Char) (p : ServerPatternEntry) : Bool :=
  strIncludes (lowerStr p.title) (lowerStr query) ||
  strIncludes (lowerStr p.description) (lowerStr query) ||
  strIncludes (lowerStr p.category) (lowerStr query)

end ServerJs

/-- The JSON bodies the HTTP routes of server.js produce: an entry list,
the single-pattern object of category, name, content and url, or an
error object carrying a message. -/
inductive RespBody
  | entries : List ServerPatternEntry → RespBody
  | patternBody : List Char → List Char → List Char → List Char → RespBody
  | errMsg : List Char → RespBody
deriving DecidableEq

/-- An HTTP response: its status code and its JSON body. -/
structure HttpResponse where
  status : Nat
  body : RespBody
deriving DecidableEq

namespace ServerJs

/-- GET /api/patterns/search, server.js lines 28 to 41: the missing query
parameter is modelled as none, and the or-default of line 30 turns it
into the empty string before the filter runs. -/
def apiSearch (fsState : List FsEntry) (q : Option (List Char)) : HttpResponse :=
  ⟨200, .entries ((getPatternList fsState).filter (searchEntryMatch (q.getD [])))⟩

/-- The filter of GET /api/patterns/category/:category, server.js line
65: strict equality against the category field. -/
def listByCategory (fsState : List FsEntry) (category : List Char) : List ServerPatternEntry :=
  (getPatternList fsState).filter (fun p => decide (p.category = category))

/-- GET /api/patterns/category/:category, server.js lines 61 to 70. -/
def apiByCategory (fsState : List FsEntry) (category : List Char) : HttpResponse :=
  ⟨200, .entries (listByCategory fsState category)⟩

end ServerJs

/-- Split a string on the slash separator, as path.join does before it
normalises the joined segments. -/
def splitSlash : List Char → List (List Char)
  | [] => [[]]
  | c :: rest =>
    if c == '/' then [] :: splitSlash rest
    else
      match splitSlash rest with
      | l :: ls => (c :: l) :: ls
      | [] => [[c]]

/-- One normalisation step of path.join: empty segments and single dots
vanish, a double dot removes the segment before it. -/
def normStep (acc : List (List Char)) (seg : List Char) : List (List Char) :=
  if seg = [] then acc
  else if seg = ".".toList then acc
  else if seg = "..".toList then acc.dropLast
  else acc ++ [seg]

/-- path.join of an absolute, already normalised root with further parts,
as a list of path segments: the parts are split on slashes and the double
dots climb out of the root, exactly as the join of index.js line 213 and
server.js line 47 does. -/
def joinPath (root : List (List Char)) (parts : List (List Char)) : List (List Char) :=
  (root ++ (parts.map splitSlash).flatten).foldl normStep []

/-- State of a path in the surrounding filesystem: a readable file with
its text, or a file whose read fails with the given message. -/
inductive FileState
  | readable : List Char → FileState
  | unreadable : List Char → FileState
deriving DecidableEq

/-- The rejection value of fs.readFile: its message and whether its code
marks a missing file. -/
structure JsError where
  message : List Char
  isNoEnt : Bool
deriving DecidableEq

/-- The surrounding filesystem as a lookup table from resolved absolute
paths to file states. -/
abbrev Gfs := List (List (List Char) × FileState)

/-- First table entry for the path, if any. -/
def lookupFile : Gfs → List (List Char) → Option FileState
  | [], _ => none
  | (q, st) :: rest, p => if q = p then some st else lookupFile rest p

/-- fs.readFile of an utf-8 file as a fallible operation over the path
table. -/
def readFileFs (gfs : Gfs) (p : List (List Char)) : Except JsError (List Char) :=
  match lookupFile gfs p with
  | some (.readable c) => .ok c
  | some (.unreadable m) => .error ⟨m, false⟩
  | none => .error ⟨"ENOENT: no such file or directory".toList, true⟩

/-- The text of the tool result index.js line 227 produces when the read
fails. -/
def notFoundText (category name : List Char) : List Char :=
  "Pattern not found: ".toList ++ category ++ [ '/' ] ++ name ++
    "\n\nAvailable categories: auth, styling, routing, deployment, api, debugging".toList

/-- A tool call result of the protocol adapter: its text content and its
error flag. -/
structure ToolResult where
  text : List Char
  isError : Bool
deriving DecidableEq

namespace IndexJs

/-- index.js getPatternCode, lines 212 to 232: path.join of the patterns
root with the caller supplied category and the name extended by the
markdown extension, then readFile; any rejection, whatever its cause,
becomes the not-found tool result. -/
def getPatternCode (gfs : Gfs) (root : List (List Char)) (category name : List Char) : ToolResult :=
  match readFileFs gfs (joinPath root [category, name ++ mdSuffix]) with
  | .ok c => ⟨c, false⟩
  | .error _ => ⟨notFoundText category name, true⟩

end IndexJs

namespace ServerJs

/-- GET /api/patterns/:category/:name, server.js lines 44 to 58: the same
join and readFile; every rejection, whatever its cause, becomes a 404
response with the fixed not-found body. -/
def apiGetPattern (gfs : Gfs) (root : List (List Char)) (category name : List Char) : HttpResponse :=
  match readFileFs gfs (joinPath root [category, name ++ mdSuffix]) with
  | .ok c => ⟨200, .patternBody category name c (urlOf category name)⟩
  | .error _ => ⟨404, .errMsg ("Pattern not found".toList)⟩

end ServerJs

/-- One entry of the patterns root when reads may fail: a category
subdirectory whose files each carry the outcome of reading them (the
text, or the message of the rejected read), or a plain file. -/
inductive BFsEntry
  | dir : List Char → List (List Char × Except (List Char) (List Char)) → BFsEntry
  | plain : List Char → BFsEntry

namespace ServerJs

/-- The inner for loop of server.js getPatternList when a readFile may
reject: the first failing read of a markdown file rejects the scan. -/
def filesLoopE (category : List Char) :
    List (List Char × Except (List Char) (List Char)) → List ServerPatternEntry →
      Except (List Char) (List ServerPatternEntry)
  | [], acc => .ok acc
  | (fname, rd) :: rest, acc =>
    if endsWithMd fname then
      match rd with
      | .error m => .error m
      | .ok content => filesLoopE category rest (acc ++ [entryOf category fname content])
    else filesLoopE category rest acc

/-- The outer for loop of the same fallible scan. -/
def catLoopE : List BFsEntry → List ServerPatternEntry →
    Except (List Char) (List ServerPatternEntry)
  | [], acc => .ok acc
  | .dir d files :: rest, acc =>
    match filesLoopE d files acc with
    | .error m => .error m
    | .ok acc2 => catLoopE rest acc2
  | .plain _ :: rest, acc => catLoopE rest acc

/-- server.js getPatternList over the fallible filesystem. -/
def getPatternListE (bfs : List BFsEntry) : Except (List Char) (List ServerPatternEntry) :=
  catLoopE bfs []

/-- GET /api/patterns, server.js lines 18 to 25: 200 with the list, or
500 with the message of the error that rejected the scan. -/
def apiList (bfs : List BFsEntry) : HttpResponse :=
  match getPatternListE bfs with
  | .ok l => ⟨200, .entries l⟩
  | .error m => ⟨500, .errMsg m⟩

end ServerJs

/-- Split a text into its lines, a line being a maximal run of characters
free of line terminators. -/
def splitLines : List Char → List (List Char)
  | [] => [[]]
  | c :: rest =>
    if jsLineTerm c then [] :: splitLines rest
    else
      match splitLines rest with
      | l :: ls => (c :: l) :: ls
      | [] => [[c]]

/-- Whether one line, taken on its own, matches the anchored regex of the
given literal marker, and the capture when it does. -/
def lineCapture (lit : Char) : List Char → Option (List Char)
  | [] => none
  | c :: rest => if c == lit then tailCapture rest else none

/-- Modelled from the spec of claim C1: the captured group of the first
line matching the anchored regex, reading the text line by line. -/
def firstLineCapture (lit : Char) (content : List Char) : Option (List Char) :=
  (splitLines content).findSome? (lineCapture lit)

/-- Modelled from the spec of claim C1: the entry it promises for one
file, with the title taken from the first line matching the anchored
title regex (the filename when no line matches) and the description from
the first line matching the anchored description regex (the empty string
when no line matches). -/
def specEntryByLine (category : List Char) (f : PatternFile) : PatternEntry :=
  ⟨category, replaceFirstMd f.fname,
    (firstLineCapture '#' f.content).getD f.fname,
    (firstLineCapture '>' f.content).getD []⟩

/-- Modelled from the spec of claim C1: exactly one entry per markdown
file of each immediate subdirectory, in enumeration order, with the
line-by-line extraction above. -/
def specCatalogByLine (fsState : List FsEntry) : List PatternEntry :=
  (fsState.map (fun e =>
    match e with
    | .dir d files => (files.filter (fun f => endsWithMd f.fname)).map (specEntryByLine d)
    | .plain _ => [])).flatten

/-- The catalog of claim C1 once its extraction clause is amended to the
match the code performs: the multiline regex is run over the whole text,
so a capture may come from a line after the marker when only whitespace
separates them. -/
def specCatalogMulti (fsState : List FsEntry) : List PatternEntry :=
  (fsState.map (fun e =>
    match e with
    | .dir d files => (files.filter (fun f => endsWithMd f.fname)).map (IndexJs.entryOf d)
    | .plain _ => [])).flatten

/-- The flattened form of the server scan, used to compare the two
adapters field by field. -/
def specCatalogServer (fsState : List FsEntry) : List ServerPatternEntry :=
  (fsState.map (fun e =>
    match e with
    | .dir d files =>
      (files.filter (fun f => endsWithMd f.fname)).map (fun f => ServerJs.entryOf d f.fname f.content)
    | .plain _ => [])).flatten

/-- The four-field projection of a server entry, dropping the url. -/
def projEntry (p : ServerPatternEntry) : PatternEntry :=
  ⟨p.category, p.name, p.title, p.description⟩

/-- Substring containment as the spec words it: some decomposition of the
haystack exhibits the needle. -/
def SubstrOf (needle hay : List Char) : Prop :=
  ∃ u v, hay = u ++ needle ++ v

/-- The refuting filesystem state for claim C1: one category, one
markdown file whose text is a hash mark, a line break, and the letter T. -/
def cexFs1 : List FsEntry :=
  [FsEntry.dir ("c".toList) [⟨"a.md".toList, "#\nT".toList⟩]]

/-- The refuting filesystem state for claim C2: one markdown file whose
text has neither a heading nor a blockquote. -/
def cexFs2 : List FsEntry :=
  [FsEntry.dir ("c".toList) [⟨"p.md".toList, "x".toList⟩]]

/-- A file on which the two extraction pipelines agree: the title match
exists (so neither fallback fires), and the anchored and the anchor-free
description extractions coincide. -/
def fileAgrees (f : PatternFile) : Bool :=
  (extractTitle f.content).isSome &&
  decide (extractDescAnchored f.content = extractDescAnywhere f.content)

/-- A root entry all of whose markdown files agree in that sense. -/
def entryAgrees : FsEntry → Bool
  | .dir _ files => files.all (fun f => !endsWithMd f.fname || fileAgrees f)
  | .plain _ => true

/-- A well-behaved filesystem state: a heading line and an anchored
blockquote line, on which the agreement hypothesis of the amended claim
holds and the two adapters produce the same projections. -/
def goodFs : List FsEntry :=
  [FsEntry.dir ("auth".toList)
    [⟨"sso.md".toList, "# Single Sign On\n> proven pattern\nbody".toList⟩]]

/-- The case-insensitive substring predicate of claim C3: the query is a
substring of the title, the description, or the category once both sides
are lowered. -/
def CiMatch (q : List Char) (p : PatternEntry) : Prop :=
  SubstrOf (lowerStr q) (lowerStr p.title) ∨
  SubstrOf (lowerStr q) (lowerStr p.description) ∨
  SubstrOf (lowerStr q) (lowerStr p.category)

/-- A filesystem state carrying the Azure pattern of the spec example. -/
def azureFs : List FsEntry :=
  [FsEntry.dir ("auth".toList)
    [⟨"azure-ad-msal.md".toList, "# Azure AD Authentication with MSAL\n> Proven pattern".toList⟩]]

/-- The patterns root used by the concrete readOne scenarios. -/
def root0 : List (List Char) := ["app".toList, "patterns".toList]

/-- A surrounding filesystem with one readable pattern file. -/
def gfs0 : Gfs :=
  [(["app".toList, "patterns".toList, "auth".toList, "sso.md".toList],
    FileState.readable ("# SSO".toList))]

/-- A surrounding filesystem whose pattern file exists but is not
readable: its read rejects with a permission error, not a missing-file
error. -/
def gfs5 : Gfs :=
  [(["app".toList, "patterns".toList, "auth".toList, "locked.md".toList],
    FileState.unreadable ("EACCES: permission denied".toList))]

/-- A fallible patterns tree whose only markdown file fails to read. -/
def bfs5 : List BFsEntry :=
  [BFsEntry.dir ("auth".toList)
    [(("broken.md".toList), Except.error ("EIO: input output error".toList))]]

/-- A populated filesystem state for the malformed-query scenario. -/
def fs6 : List FsEntry :=
  [FsEntry.dir ("auth".toList) [⟨"sso.md".toList, "# SSO\n> single sign on".toList⟩]]

/-- A surrounding filesystem with a readable markdown file one level
above the patterns root. -/
def gfs9 : Gfs :=
  [(["srv".toList, "app".toList, "secret.md".toList],
    FileState.readable ("TOP SECRET".toList))]

/-- The patterns root for the traversal scenario. -/
def root9 : List (List Char) := ["srv".toList, "app".toList, "patterns".toList]

/-- The directory entry name of a root entry. -/
def rootName : FsEntry → List Char
  | .dir d _ => d
  | .plain n => n

/-- readdir of the child of the patterns root named by the caller: the
first entry carrying that name (a real directory listing holds each name
at most once). -/
def lookupRoot : List FsEntry → List Char → Option FsEntry
  | [], _ => none
  | e :: rest, category =>
    if rootName e = category then some e else lookupRoot rest category

namespace IndexJs

/-- The text of index.js line 244: the header line and one dashed line
per name. -/
def categoryListText (category : List Char) (names : List (List Char)) : List Char :=
  "Patterns in ".toList ++ category ++ ":\n".toList ++
    List.intercalate ("\n".toList) (names.map (fun n => "- ".toList ++ n))

/-- The text of index.js line 251, returned when the directory read
fails. -/
def categoryNotFoundText (category : List Char) : List Char :=
  "Category not found: ".toList ++ category ++
    "\n\nAvailable categories: auth, styling, routing, deployment, api, debugging".toList

/-- index.js listPatternsByCategory, lines 234 to 256: its own readdir of
the category child of the root (the caller supplied category is modelled
as a plain child name here; inputs with path separators belong to the
path-based model of getPatternCode), the markdown filter and the
extension strip, rendered as a text of names; a missing child, or a
plain file child on which readdir rejects, falls into the catch clause
and yields the not-found result. -/
def listPatternsByCategory (fsState : List FsEntry) (category : List Char) : ToolResult :=
  match lookupRoot fsState category with
  | some (.dir _ files) =>
    ⟨categoryListText category
      ((files.filter (fun f => endsWithMd f.fname)).map (fun f => replaceFirstMd f.fname)),
      false⟩
  | _ => ⟨categoryNotFoundText category, true⟩

end IndexJs

/-- A patterns root with a stray plain file and two categories, used by
the by-category scenario. -/
def catFs : List FsEntry :=
  [FsEntry.plain ("README.md".toList),
   FsEntry.dir ("routing".toList)
     [⟨"react-router-navigation.md".toList, "# React Router Navigation Pattern".toList⟩],
   FsEntry.dir ("auth".toList) [⟨"azure-ad-msal.md".toList, "# Azure AD".toList⟩]]

theorem indexFilesLoop_eq (category : List Char) (files : List PatternFile)
    (acc : List PatternEntry) :
    IndexJs.filesLoop category files acc =
      acc ++ (files.filter (fun f => endsWithMd f.fname)).map (IndexJs.entryOf category) := by
  induction files generalizing acc with
  | nil => simp [IndexJs.filesLoop]
  | cons f rest ih =>
    cases h : endsWithMd f.fname with
    | true => simp [IndexJs.filesLoop, h, ih, List.filter_cons]
    | false => simp [IndexJs.filesLoop, h, ih, List.filter_cons]

theorem indexCatLoop_eq (entries : List FsEntry) (acc : List PatternEntry) :
    IndexJs.catLoop entries acc = acc ++ specCatalogMulti entries := by
  induction entries generalizing acc with
  | nil => simp [IndexJs.catLoop, specCatalogMulti]
  | cons e rest ih =>
    cases e with
    | dir d files =>
      simp [IndexJs.catLoop, ih, indexFilesLoop_eq, specCatalogMulti]
    | plain n => simp [IndexJs.catLoop, ih, specCatalogMulti]

theorem index_getPatternList_eq (fsState : List FsEntry) :
    IndexJs.getPatternList fsState = specCatalogMulti fsState := by
  simp [IndexJs.getPatternList, indexCatLoop_eq]

theorem serverFilesLoop_eq (category : List Char) (files : List PatternFile)
    (acc : List ServerPatternEntry) :
    ServerJs.filesLoop category files acc =
      acc ++ (files.filter (fun f => endsWithMd f.fname)).map
        (fun f => ServerJs.entryOf category f.fname f.content) := by
  induction files generalizing acc with
  | nil => simp [ServerJs.filesLoop]
  | cons f rest ih =>
    cases h : endsWithMd f.fname with
    | true => simp [ServerJs.filesLoop, h, ih, List.filter_cons]
    | false => simp [ServerJs.filesLoop, h, ih, List.filter_cons]

theorem serverCatLoop_eq (entries : List FsEntry) (acc : List ServerPatternEntry) :
    ServerJs.catLoop entries acc = acc ++ specCatalogServer entries := by
  induction entries generalizing acc with
  | nil => simp [ServerJs.catLoop, specCatalogServer]
  | cons e rest ih =>
    cases e with
    | dir d files =>
      simp [ServerJs.catLoop, ih, serverFilesLoop_eq, specCatalogServer]
    | plain n => simp [ServerJs.catLoop, ih, specCatalogServer]

theorem server_getPatternList_eq (fsState : List FsEntry) :
    ServerJs.getPatternList fsState = specCatalogServer fsState := by
  simp [ServerJs.getPatternList, serverCatLoop_eq]

theorem isPrefixOf_eq_true_iff (l m : List Char) :
    l.isPrefixOf m = true ↔ ∃ t, l ++ t = m := by
  induction l generalizing m with
  | nil => simp [List.isPrefixOf]
  | cons a as ih =>
    cases m with
    | nil => simp [List.isPrefixOf]
    | cons b bs =>
      simp only [List.isPrefixOf, Bool.and_eq_true, beq_iff_eq, ih, List.cons_append,
        List.cons.injEq]
      constructor
      · rintro ⟨rfl, t, rfl⟩
        exact ⟨t, rfl, rfl⟩
      · rintro ⟨t, rfl, rfl⟩
        exact ⟨rfl, t, rfl⟩

theorem strIncludes_iff (hay needle : List Char) :
    strIncludes hay needle = true ↔ SubstrOf needle hay := by
  induction hay with
  | nil =>
    simp only [strIncludes, List.isEmpty_iff, SubstrOf]
    constructor
    · rintro rfl
      exact ⟨[], [], rfl⟩
    · rintro ⟨u, v, h⟩
      rcases List.append_eq_nil.mp h.symm with ⟨h1, h2⟩
      exact (List.append_eq_nil.mp h1).2
  | cons c rest ih =>
    simp only [strIncludes, Bool.or_eq_true, isPrefixOf_eq_true_iff, ih, SubstrOf]
    constructor
    · rintro (⟨t, ht⟩ | ⟨u, v, rfl⟩)
      · exact ⟨[], t, by simp [ht]⟩
      · exact ⟨c :: u, v, rfl⟩
    · rintro ⟨u, v, huv⟩
      cases u with
      | nil =>
        exact Or.inl ⟨v, by simpa using huv.symm⟩
      | cons x u2 =>
        rw [List.cons_append, List.cons_append] at huv
        injection huv with h1 h2
        exact Or.inr ⟨u2, v, h2⟩

theorem strIncludes_nilNeedle (hay : List Char) : strIncludes hay [] = true := by
  cases hay with
  | nil => rfl
  | cons c rest =>
    have h : ([] : List Char).isPrefixOf (c :: rest) = true :=
      (isPrefixOf_eq_true_iff [] (c :: rest)).mpr ⟨c :: rest, rfl⟩
    simp [strIncludes, h]

/-- Claim C1, refuted as stated: on cexFs1 no single line of the file
text matches the anchored title regex, so the claim promises the
filename a.md as the title; the scanner of index.js, whose regex
whitespace crosses the line break, titles the entry T instead. -/
theorem claim_C1_cex :
    IndexJs.getPatternList cexFs1 ≠ specCatalogByLine cexFs1 ∧
    (IndexJs.getPatternList cexFs1).map PatternEntry.title = ["T".toList] ∧
    (specCatalogByLine cexFs1).map PatternEntry.title = ["a.md".toList] := by
  refine ⟨by decide, by decide, by decide⟩

/-- Claim C1 amended: the catalog emits exactly one entry per file whose
name ends in .md inside an immediate subdirectory, in filesystem
enumeration order, where the title and the description captures come
from the first match of the multiline regexes over the whole text (not
line by line: the whitespace of the match may cross a line break), with
the filename and the empty string as fallbacks when no match exists. -/
theorem claim_C1_amended (fsState : List FsEntry) :
    IndexJs.getPatternList fsState = specCatalogMulti fsState :=
  index_getPatternList_eq fsState

/-- Claim C2, refuted as stated: on cexFs2 the protocol adapter titles
the entry with the full filename p.md while the HTTP adapter titles it
with the stripped name p, so the four-field projections differ. -/
theorem claim_C2_cex :
    IndexJs.getPatternList cexFs2 ≠ (ServerJs.getPatternList cexFs2).map projEntry ∧
    (IndexJs.getPatternList cexFs2).map PatternEntry.title = ["p.md".toList] ∧
    ((ServerJs.getPatternList cexFs2).map projEntry).map PatternEntry.title = ["p".toList] := by
  refine ⟨by decide, by decide, by decide⟩

theorem entry_proj_agree (d : List Char) (f : PatternFile) (h : fileAgrees f = true) :
    IndexJs.entryOf d f = projEntry (ServerJs.entryOf d f.fname f.content) := by
  rw [fileAgrees, Bool.and_eq_true] at h
  obtain ⟨h1, h2⟩ := h
  obtain ⟨t, ht⟩ := Option.isSome_iff_exists.mp h1
  have hd : extractDescAnchored f.content = extractDescAnywhere f.content :=
    of_decide_eq_true h2
  simp [IndexJs.entryOf, ServerJs.entryOf, projEntry, ht, hd]

theorem catalogs_agree (fsState : List FsEntry) (h : fsState.all entryAgrees = true) :
    specCatalogMulti fsState = (specCatalogServer fsState).map projEntry := by
  induction fsState with
  | nil => rfl
  | cons e rest ih =>
    rw [List.all_cons, Bool.and_eq_true] at h
    obtain ⟨he, hrest⟩ := h
    cases e with
    | dir d files =>
      have e1 : specCatalogMulti (FsEntry.dir d files :: rest) =
          (files.filter (fun f => endsWithMd f.fname)).map (IndexJs.entryOf d) ++
            specCatalogMulti rest := rfl
      have e2 : specCatalogServer (FsEntry.dir d files :: rest) =
          (files.filter (fun f => endsWithMd f.fname)).map
              (fun f => ServerJs.entryOf d f.fname f.content) ++
            specCatalogServer rest := rfl
      rw [e1, e2, List.map_append, ih hrest, List.map_map]
      congr 1
      apply List.map_congr_left
      intro f hf
      rw [List.mem_filter] at hf
      have ha : (!endsWithMd f.fname || fileAgrees f) = true := by
        rw [entryAgrees, List.all_eq_true] at he
        exact he f hf.1
      rw [hf.2] at ha
      simp only [Bool.not_true, Bool.false_or] at ha
      exact entry_proj_agree d f ha
    | plain n =>
      have e1 : specCatalogMulti (FsEntry.plain n :: rest) = specCatalogMulti rest := rfl
      have e2 : specCatalogServer (FsEntry.plain n :: rest) = specCatalogServer rest := rfl
      rw [e1, e2]
      exact ih hrest

theorem keys_agree (fsState : List FsEntry) :
    (specCatalogMulti fsState).map (fun p => (p.category, p.name)) =
      ((specCatalogServer fsState).map projEntry).map (fun p => (p.category, p.name)) := by
  induction fsState with
  | nil => rfl
  | cons e rest ih =>
    cases e with
    | dir d files =>
      have e1 : specCatalogMulti (FsEntry.dir d files :: rest) =
          (files.filter (fun f => endsWithMd f.fname)).map (IndexJs.entryOf d) ++
            specCatalogMulti rest := rfl
      have e2 : specCatalogServer (FsEntry.dir d files :: rest) =
          (files.filter (fun f => endsWithMd f.fname)).map
              (fun f => ServerJs.entryOf d f.fname f.content) ++
            specCatalogServer rest := rfl
      rw [e1, e2, List.map_append, List.map_append, List.map_append, ih, List.map_map,
        List.map_map, List.map_map]
      congr 1
      rw [List.map_map]
      exact List.map_congr_left fun f _ => rfl
    | plain n =>
      exact ih

/-- Claim C2 amended: the two scanning routines agree on the category and
the name of every entry, entry by entry, for every filesystem state; and
they agree on all four projected fields for every state all of whose
markdown files both carry a title match and give the same description
under the anchored and the anchor-free regex. The amendment is forced by
the two divergences of the counterexample: the title fallback (full
filename against stripped name) and the missing line-start anchor of the
HTTP description regex. -/
theorem claim_C2_amended (fsState : List FsEntry) :
    (IndexJs.getPatternList fsState).map (fun p => (p.category, p.name)) =
      ((ServerJs.getPatternList fsState).map projEntry).map (fun p => (p.category, p.name)) ∧
    (fsState.all entryAgrees = true →
      IndexJs.getPatternList fsState = (ServerJs.getPatternList fsState).map projEntry) := by
  rw [index_getPatternList_eq, server_getPatternList_eq]
  exact ⟨keys_agree fsState, catalogs_agree fsState⟩

theorem claim_C2_witness :
    IndexJs.getPatternList goodFs = (ServerJs.getPatternList goodFs).map projEntry :=
  (claim_C2_amended goodFs).2 (by decide)

theorem searchMatch_iff (q : List Char) (p : PatternEntry) :
    IndexJs.searchMatch q p = true ↔ CiMatch q p := by
  simp only [IndexJs.searchMatch, Bool.or_eq_true, strIncludes_iff, CiMatch]
  exact or_assoc

theorem searchMatch_lower_congr (q q2 : List Char) (h : lowerStr q = lowerStr q2) :
    IndexJs.searchMatch q = IndexJs.searchMatch q2 := by
  funext p
  unfold IndexJs.searchMatch
  rw [h]

theorem searchEntryMatch_lower_congr (q q2 : List Char) (h : lowerStr q = lowerStr q2) :
    ServerJs.searchEntryMatch q = ServerJs.searchEntryMatch q2 := by
  funext p
  unfold ServerJs.searchEntryMatch
  rw [h]

/-- Claim C3: search returns exactly the entries one of whose three
fields contains the query as a case-insensitive substring, as a
subsequence of the catalog in the original order, and two queries with
the same lowering (such as the uppercase and the lowercase form of one
word) give identical results on both adapters. -/
theorem claim_C3 (fsState : List FsEntry) (q : List Char) :
    (∀ p, p ∈ IndexJs.searchPatterns fsState q ↔
        p ∈ IndexJs.getPatternList fsState ∧ CiMatch q p) ∧
    (IndexJs.searchPatterns fsState q).Sublist (IndexJs.getPatternList fsState) ∧
    (∀ q2, lowerStr q = lowerStr q2 →
        IndexJs.searchPatterns fsState q = IndexJs.searchPatterns fsState q2 ∧
        ServerJs.apiSearch fsState (some q) = ServerJs.apiSearch fsState (some q2)) := by
  refine ⟨fun p => ?_, List.filter_sublist _, fun q2 h => ⟨?_, ?_⟩⟩
  · simp only [IndexJs.searchPatterns, List.mem_filter]
    rw [searchMatch_iff]
  · simp only [IndexJs.searchPatterns]
    rw [searchMatch_lower_congr q q2 h]
  · simp only [ServerJs.apiSearch, Option.getD_some]
    rw [searchEntryMatch_lower_congr q q2 h]

theorem claim_C3_witness :
    IndexJs.searchPatterns azureFs ("AZURE".toList) = IndexJs.searchPatterns azureFs ("azure".toList) ∧
    ServerJs.apiSearch azureFs (some ("AZURE".toList)) = ServerJs.apiSearch azureFs (some ("azure".toList)) :=
  (claim_C3 azureFs ("AZURE".toList)).2.2 ("azure".toList) (by decide)

/-- Claim C4: when the joined path carries a readable file, both
adapters return exactly its raw text; when the pair resolves to no file
at all, the protocol adapter answers with its not-found error result and
the HTTP adapter with a 404 response. -/
theorem claim_C4 (gfs : Gfs) (root : List (List Char)) (category name : List Char) :
    (∀ c, lookupFile gfs (joinPath root [category, name ++ mdSuffix]) =
        some (FileState.readable c) →
      IndexJs.getPatternCode gfs root category name = ⟨c, false⟩ ∧
      ServerJs.apiGetPattern gfs root category name =
        ⟨200, RespBody.patternBody category name c (ServerJs.urlOf category name)⟩) ∧
    (lookupFile gfs (joinPath root [category, name ++ mdSuffix]) = none →
      IndexJs.getPatternCode gfs root category name = ⟨notFoundText category name, true⟩ ∧
      ServerJs.apiGetPattern gfs root category name =
        ⟨404, RespBody.errMsg ("Pattern not found".toList)⟩) := by
  constructor
  · intro c h
    constructor
    · simp [IndexJs.getPatternCode, readFileFs, h]
    · simp [ServerJs.apiGetPattern, readFileFs, h]
  · intro h
    constructor
    · simp [IndexJs.getPatternCode, readFileFs, h]
    · simp [ServerJs.apiGetPattern, readFileFs, h]

theorem claim_C4_witness :
    IndexJs.getPatternCode gfs0 root0 ("auth".toList) ("sso".toList) = ⟨"# SSO".toList, false⟩ ∧
    ServerJs.apiGetPattern gfs0 root0 ("auth".toList) ("missing".toList) =
      ⟨404, RespBody.errMsg ("Pattern not found".toList)⟩ :=
  ⟨((claim_C4 gfs0 root0 ("auth".toList) ("sso".toList)).1 ("# SSO".toList) (by decide)).1,
   ((claim_C4 gfs0 root0 ("auth".toList) ("missing".toList)).2 (by decide)).2⟩

/-- Claim C5, refuted as stated: on gfs5 the single-pattern route faces
an input-output failure that is not a missing file, yet it answers 404
with the fixed body instead of the 500 with the underlying message that
the claim promises; the route does not discriminate the failure cause. -/
theorem claim_C5_cex :
    lookupFile gfs5 (joinPath root0 [("auth".toList), ("locked".toList) ++ mdSuffix]) =
      some (FileState.unreadable ("EACCES: permission denied".toList)) ∧
    ServerJs.apiGetPattern gfs5 root0 ("auth".toList) ("locked".toList) =
      ⟨404, RespBody.errMsg ("Pattern not found".toList)⟩ ∧
    (ServerJs.apiGetPattern gfs5 root0 ("auth".toList) ("locked".toList)).status ≠ 500 := by
  refine ⟨by decide, by decide, by decide⟩

/-- Claim C5 amended: the single-pattern route answers 404 with the fixed
body on every read failure, whatever its cause; the failure-cause
discrimination lives one route up, where the full-listing route answers
500 carrying the underlying message whenever the scan fails, and 200
with the list otherwise. -/
theorem claim_C5_amended :
    (∀ (gfs : Gfs) (root : List (List Char)) (category name : List Char) (e : JsError),
      readFileFs gfs (joinPath root [category, name ++ mdSuffix]) = .error e →
      ServerJs.apiGetPattern gfs root category name =
        ⟨404, RespBody.errMsg ("Pattern not found".toList)⟩) ∧
    (∀ (bfs : List BFsEntry) (m : List Char), ServerJs.getPatternListE bfs = .error m →
      ServerJs.apiList bfs = ⟨500, RespBody.errMsg m⟩) ∧
    (∀ (bfs : List BFsEntry) (l : List ServerPatternEntry), ServerJs.getPatternListE bfs = .ok l →
      ServerJs.apiList bfs = ⟨200, RespBody.entries l⟩) := by
  refine ⟨fun gfs root category name e h => ?_, fun bfs m h => ?_, fun bfs l h => ?_⟩
  · simp [ServerJs.apiGetPattern, h]
  · simp [ServerJs.apiList, h]
  · simp [ServerJs.apiList, h]

theorem claim_C5_witness :
    ServerJs.apiList bfs5 = ⟨500, RespBody.errMsg ("EIO: input output error".toList)⟩ ∧
    ServerJs.apiGetPattern gfs5 root0 ("auth".toList) ("locked".toList) =
      ⟨404, RespBody.errMsg ("Pattern not found".toList)⟩ :=
  ⟨claim_C5_amended.2.1 bfs5 ("EIO: input output error".toList) rfl,
   claim_C5_amended.1 gfs5 root0 ("auth".toList) ("locked".toList)
     ⟨"EACCES: permission denied".toList, false⟩ rfl⟩

/-- Claim C6, refuted: a search request with the query parameter missing
is not rejected with a 400; the route answers 200 with the full catalog,
scanned from the filesystem. -/
theorem claim_C6_cex :
    (ServerJs.apiSearch fs6 none).status = 200 ∧
    (ServerJs.apiSearch fs6 none).status ≠ 400 ∧
    ServerJs.apiSearch fs6 none = ⟨200, RespBody.entries (ServerJs.getPatternList fs6)⟩ := by
  refine ⟨by decide, by decide, by decide⟩

theorem searchEntryMatch_nil (p : ServerPatternEntry) : ServerJs.searchEntryMatch [] p = true := by
  simp [ServerJs.searchEntryMatch, lowerStr, strIncludes_nilNeedle]

theorem searchMatch_nil (p : PatternEntry) : IndexJs.searchMatch [] p = true := by
  simp [IndexJs.searchMatch, lowerStr, strIncludes_nilNeedle]

/-- Claim C6 amended: a request with the query parameter missing is not
rejected at all; the or-default of the route turns the absent parameter
into the empty query, the filesystem is scanned, and the full catalog
comes back with status 200. -/
theorem claim_C6_amended (fsState : List FsEntry) :
    ServerJs.apiSearch fsState none = ⟨200, RespBody.entries (ServerJs.getPatternList fsState)⟩ := by
  have h : (ServerJs.getPatternList fsState).filter (ServerJs.searchEntryMatch []) =
      ServerJs.getPatternList fsState :=
    List.filter_eq_self.mpr (fun a _ => searchEntryMatch_nil a)
  simp [ServerJs.apiSearch, Option.getD_none, h]

theorem specServer_append (l1 l2 : List FsEntry) :
    specCatalogServer (l1 ++ l2) = specCatalogServer l1 ++ specCatalogServer l2 := by
  simp [specCatalogServer, List.map_append, List.flatten_append]

theorem lookupRoot_append (pre : List FsEntry) (category : List Char)
    (files : List PatternFile) (post : List FsEntry)
    (h : ∀ e ∈ pre, rootName e ≠ category) :
    lookupRoot (pre ++ FsEntry.dir category files :: post) category =
      some (FsEntry.dir category files) := by
  induction pre with
  | nil => simp [lookupRoot, rootName]
  | cons e rest ih =>
    have he : rootName e ≠ category := h e (by simp)
    simp only [List.cons_append, lookupRoot, if_neg he]
    exact ih (fun x hx => h x (by simp [hx]))

theorem filter_specServer_nil (l : List FsEntry) (category : List Char)
    (h : ∀ e ∈ l, rootName e ≠ category) :
    (specCatalogServer l).filter (fun p => decide (p.category = category)) = [] := by
  induction l with
  | nil => rfl
  | cons e rest ih =>
    have hrest := ih (fun x hx => h x (by simp [hx]))
    cases e with
    | dir d files =>
      have hd : d ≠ category := h (FsEntry.dir d files) (by simp)
      have e1 : specCatalogServer (FsEntry.dir d files :: rest) =
          (files.filter (fun f => endsWithMd f.fname)).map
            (fun f => ServerJs.entryOf d f.fname f.content) ++ specCatalogServer rest := rfl
      rw [e1, List.filter_append, hrest, List.append_nil]
      apply List.filter_eq_nil_iff.mpr
      intro p hp
      obtain ⟨f, hf, rfl⟩ := List.mem_map.mp hp
      simp [ServerJs.entryOf, hd]
    | plain n =>
      have e1 : specCatalogServer (FsEntry.plain n :: rest) = specCatalogServer rest := rfl
      rw [e1]
      exact hrest

theorem listByCategory_unique (category : List Char) (pre : List FsEntry)
    (files : List PatternFile) (post : List FsEntry)
    (h : ∀ e ∈ pre ++ post, rootName e ≠ category) :
    ServerJs.listByCategory (pre ++ FsEntry.dir category files :: post) category =
      (files.filter (fun f => endsWithMd f.fname)).map
        (fun f => ServerJs.entryOf category f.fname f.content) := by
  have hpre : ∀ e ∈ pre, rootName e ≠ category :=
    fun e he => h e (List.mem_append_left _ he)
  have hpost : ∀ e ∈ post, rootName e ≠ category :=
    fun e he => h e (List.mem_append_right _ he)
  have e1 : specCatalogServer (FsEntry.dir category files :: post) =
      (files.filter (fun f => endsWithMd f.fname)).map
        (fun f => ServerJs.entryOf category f.fname f.content) ++ specCatalogServer post := rfl
  simp only [ServerJs.listByCategory]
  rw [server_getPatternList_eq, specServer_append, List.filter_append,
    filter_specServer_nil pre category hpre, e1, List.filter_append,
    filter_specServer_nil post category hpost, List.append_nil, List.nil_append]
  apply List.filter_eq_self.mpr
  intro p hp
  obtain ⟨f, hf, rfl⟩ := List.mem_map.mp hp
  simp [ServerJs.entryOf]

/-- Claim C7: the by-category listing is the subsequence of the full
catalog whose entries carry exactly the requested category, the route
returns it with status 200, and on a root whose entry names are unique
the protocol adapter's own by-category tool renders exactly the names of
those entries. -/
theorem claim_C7 (fsState : List FsEntry) (category : List Char) :
    (ServerJs.listByCategory fsState category).Sublist (ServerJs.getPatternList fsState) ∧
    (∀ p, p ∈ ServerJs.listByCategory fsState category ↔
        p ∈ ServerJs.getPatternList fsState ∧ p.category = category) ∧
    ServerJs.apiByCategory fsState category =
      ⟨200, RespBody.entries (ServerJs.listByCategory fsState category)⟩ ∧
    (∀ pre files post,
      fsState = pre ++ FsEntry.dir category files :: post →
      (∀ e ∈ pre ++ post, rootName e ≠ category) →
      IndexJs.listPatternsByCategory fsState category =
        ⟨IndexJs.categoryListText category
          ((ServerJs.listByCategory fsState category).map ServerPatternEntry.name),
          false⟩) := by
  refine ⟨List.filter_sublist _, fun p => ?_, rfl, ?_⟩
  · simp [ServerJs.listByCategory, List.mem_filter]
  · intro pre files post hsplit hothers
    subst hsplit
    have hpre : ∀ e ∈ pre, rootName e ≠ category :=
      fun e he => hothers e (List.mem_append_left _ he)
    rw [listByCategory_unique category pre files post hothers]
    simp only [IndexJs.listPatternsByCategory, lookupRoot_append pre category files post hpre]
    rw [List.map_map]
    rfl

theorem claim_C7_witness :
    IndexJs.listPatternsByCategory catFs ("auth".toList) =
      ⟨IndexJs.categoryListText ("auth".toList)
        ((ServerJs.listByCategory catFs ("auth".toList)).map ServerPatternEntry.name),
        false⟩ :=
  (claim_C7 catFs ("auth".toList)).2.2.2
    [FsEntry.plain ("README.md".toList),
     FsEntry.dir ("routing".toList)
       [⟨"react-router-navigation.md".toList, "# React Router Navigation Pattern".toList⟩]]
    [⟨"azure-ad-msal.md".toList, "# Azure AD".toList⟩] [] rfl (by decide)

/-- Claim C8: the empty query matches every entry, so search with the
empty string returns the full catalog unchanged on both adapters. -/
theorem claim_C8 (fsState : List FsEntry) :
    IndexJs.searchPatterns fsState [] = IndexJs.getPatternList fsState ∧
    ServerJs.apiSearch fsState (some []) =
      ⟨200, RespBody.entries (ServerJs.getPatternList fsState)⟩ := by
  constructor
  · exact List.filter_eq_self.mpr (fun a _ => searchMatch_nil a)
  · have h : (ServerJs.getPatternList fsState).filter (ServerJs.searchEntryMatch []) =
        ServerJs.getPatternList fsState :=
      List.filter_eq_self.mpr (fun a _ => searchEntryMatch_nil a)
    simp [ServerJs.apiSearch, Option.getD_some, h]

/-- Claim C9: readOne joins the root with the caller supplied strings
without validation, so a category of two dots resolves to a path that
does not stay under the root, and both adapters return the content of
the readable file that lives there instead of failing. -/
theorem claim_C9 :
    ∃ (gfs : Gfs) (root : List (List Char)) (category name c : List Char),
      strIncludes category ("..".toList) = true ∧
      root.isPrefixOf (joinPath root [category, name ++ mdSuffix]) = false ∧
      lookupFile gfs (joinPath root [category, name ++ mdSuffix]) =
        some (FileState.readable c) ∧
      IndexJs.getPatternCode gfs root category name = ⟨c, false⟩ ∧
      ServerJs.apiGetPattern gfs root category name =
        ⟨200, RespBody.patternBody category name c (ServerJs.urlOf category name)⟩ :=
  ⟨gfs9, root9, "..".toList, "secret".toList, "TOP SECRET".toList, by decide⟩

theorem prefixOf_append_md (c : Char) (g2 : List Char)
    (h1 : mdSuffix.isPrefixOf (c :: g2) = false) :
    mdSuffix.isPrefixOf (c :: (g2 ++ mdSuffix)) = false := by
  cases g2 with
  | nil =>
    simp [mdSuffix, List.isPrefixOf, show ('m' == '.') = false from rfl]
  | cons x g3 =>
    cases g3 with
    | nil =>
      simp [mdSuffix, List.isPrefixOf, show ('d' == '.') = false from rfl]
    | cons y g4 =>
      simpa [mdSuffix, List.isPrefixOf] using h1

theorem replaceFirst_append (g : List Char) (h : strIncludes g mdSuffix = false) :
    replaceFirstMd (g ++ mdSuffix) = g := by
  induction g with
  | nil => decide
  | cons c g2 ih =>
    simp only [strIncludes, Bool.or_eq_false_iff] at h
    obtain ⟨h1, h2⟩ := h
    have hp := prefixOf_append_md c g2 h1
    simp [List.cons_append, replaceFirstMd, hp, ih h2]

/-- Claim C10: the name field strips the first occurrence of the
extension, so appending the extension back recovers the filename exactly
when the extension occurs nowhere earlier in the name; the catalog shows
the failure on the filename a.md.x.md, which is indexed under the name
a.x.md and does not round-trip. -/
theorem claim_C10 :
    (∀ g, strIncludes g mdSuffix = false →
      replaceFirstMd (g ++ mdSuffix) ++ mdSuffix = g ++ mdSuffix) ∧
    (IndexJs.getPatternList
        [FsEntry.dir ("c".toList) [⟨"a.md.x.md".toList, "t".toList⟩]]).map
      PatternEntry.name = ["a.x.md".toList] ∧
    replaceFirstMd ("a.md.x.md".toList) ++ mdSuffix ≠ "a.md.x.md".toList := by
  refine ⟨fun g h => by rw [replaceFirst_append g h], by decide, by decide⟩

theorem claim_C10_witness :
    replaceFirstMd ("azure-ad-msal".toList ++ mdSuffix) ++ mdSuffix =
      "azure-ad-msal".toList ++ mdSuffix :=
  claim_C10.1 ("azure-ad-msal".toList) (by decide)
